import Mathlib

/-
  Verification of the animation/timing engine of the icecore demo chart:
  the tween interpolator (useTweenState), the inertial interpolator
  (useInertialState), and the pan/zoom coordinator (panGraph / zoomGraph
  in the App component).

  Numbers are modelled as rationals.  Timestamps are monotonic
  milliseconds, exactly as in the source.  Note that division by zero in
  ℚ yields 0 (JavaScript would give Infinity/NaN); theorems below never
  rely on a division by zero except where explicitly noted.
-/

namespace Icecore

/-! ## Tween engine (useTweenState) -/

/-- State of one tween instance: the refs `currentValue`, `targetValue`,
`startValue`, `startTime` of useTweenState, plus whether a frame
callback is pending (`animateRef`). -/
structure TweenState where
  currentValue : ℚ
  targetValue : ℚ
  startValue : ℚ
  startTime : ℚ
  scheduled : Bool
deriving DecidableEq

/-- The setter returned to the caller (`setTargetValue`).  Guard: the body
runs only when the new value differs from the CURRENT animated value
(`value !== currentValue.current`).  When it runs it captures the start
value and start time, stores the target, cancels any pending callback
and schedules a new one.  (The second `tween` argument some call sites
pass is not a parameter of this function and is ignored.) -/
def setTargetValue (s : TweenState) (v now : ℚ) : TweenState :=
  if v ≠ s.currentValue then
    { s with startValue := s.currentValue
             startTime := now
             targetValue := v
             scheduled := true }
  else s

/-- The per-frame callback (`animate`): `dt = timestamp - startTime`;
if `dt >= duration` jump to the target and stop, otherwise ease and
reschedule. -/
def animate (d : ℚ) (ease : ℚ → ℚ) (s : TweenState) (ts : ℚ) : TweenState :=
  let dt := ts - s.startTime
  if d ≤ dt then
    { s with currentValue := s.targetValue, scheduled := false }
  else
    { s with currentValue := ease (dt / d) * (s.targetValue - s.startValue) + s.startValue
             scheduled := true }

/-- Run the pending frame callback of a tween, if one is scheduled. -/
def tweenFrame (d : ℚ) (ease : ℚ → ℚ) (s : TweenState) (ts : ℚ) : TweenState :=
  if s.scheduled then animate d ease s ts else s

/-- Quadratic ease-in-out, the default easing of useTweenState. -/
def easeInOutQuad (t : ℚ) : ℚ :=
  if t < 1/2 then 2 * t * t else -1 + (4 - 2 * t) * t

/-- Linear easing. -/
def easeLinear (t : ℚ) : ℚ := t

/-! ## Inertial engine (useInertialState) -/

/-- Which frame callback is currently registered in `animateRef`. -/
inductive Pending where
  | idle
  | forcing
  | coasting
deriving DecidableEq

/-- State of one inertial instance: `value` is the React value state
(the position read by the renderer), `target` models both the
`targetValue` ref and the React target state (always written together by
`setTarget`), plus the refs `previousValue`, `previousTimestamp`,
`velocity`, and the pending callback. -/
structure InertialState where
  value : ℚ
  target : ℚ
  previousValue : ℚ
  previousTimestamp : ℚ
  velocity : ℚ
  pending : Pending
deriving DecidableEq

/-- The setter returned to the caller (`setManualForcing`): stores the
target, cancels any pending callback and schedules `manualForcing` for
the next frame.  The value state is NOT touched here. -/
def setManualForcing (s : InertialState) (v : ℚ) : InertialState :=
  { s with target := v, pending := Pending.forcing }

/-- The `manualForcing` frame callback: finite-difference velocity with
`dt = (timestamp - previousTimestamp) / 1000`, then publish the target
as the value and schedule `inertial`.  The source has no guard for an
unset previous timestamp or `dt <= 0`. -/
def manualForcingStep (s : InertialState) (ts : ℚ) : InertialState :=
  let dt := (ts - s.previousTimestamp) / 1000
  { s with velocity := (s.target - s.previousValue) / dt
           previousValue := s.target
           previousTimestamp := ts
           value := s.target
           pending := Pending.coasting }

/-- The damped velocity computed at the start of an `inertial` frame:
`velocity -= velocity * zeta * dt`. -/
def coastVel (zeta : ℚ) (s : InertialState) (ts : ℚ) : ℚ :=
  s.velocity - s.velocity * zeta * ((ts - s.previousTimestamp) / 1000)

/-- The `inertial` (coasting) frame callback: dampen the velocity,
round the next value (`Math.round`, i.e. `⌊x + 1/2⌋`), publish it as
both value and target; reschedule while `|velocity| > threshold`,
otherwise zero the velocity and stop. -/
def inertialStep (zeta threshold : ℚ) (s : InertialState) (ts : ℚ) : InertialState :=
  let dt := (ts - s.previousTimestamp) / 1000
  let vel := coastVel zeta s ts
  let next : ℚ := ((round (s.target + vel * dt) : ℤ) : ℚ)
  if threshold < |vel| then
    { value := next, target := next, previousValue := s.target,
      previousTimestamp := ts, velocity := vel, pending := Pending.coasting }
  else
    { value := next, target := next, previousValue := s.target,
      previousTimestamp := ts, velocity := 0, pending := Pending.idle }

/-- One animation frame of the inertial engine: run whichever callback
is registered, if any. -/
def stepFrame (zeta threshold : ℚ) (s : InertialState) (ts : ℚ) : InertialState :=
  match s.pending with
  | Pending.idle => s
  | Pending.forcing => manualForcingStep s ts
  | Pending.coasting => inertialStep zeta threshold s ts

/-- Run `n` frames at the given timestamps (frame `k+1` fires at
`times (k+1)`). -/
def runFrames (zeta threshold : ℚ) (s0 : InertialState) (times : ℕ → ℚ) : ℕ → InertialState
  | 0 => s0
  | n + 1 => stepFrame zeta threshold (runFrames zeta threshold s0 times n) (times (n + 1))

/-! ## Pan/zoom coordinator (App) -/

/-- Coordinator state: the `xScaleFactor` tween, the `xOffset` inertial
state and the `xOffsetDelta` tween. -/
structure AppState where
  scale : TweenState
  offset : InertialState
  delta : TweenState
deriving DecidableEq

/-- `clamp(value, min, max) = Math.max(min, Math.min(value, max))`. -/
def clamp (v lo hi : ℚ) : ℚ := max lo (min v hi)

/-- `xOffsetClamp(width, offset, scaleFactor)`: clamp the offset to the
visible data, `[-width*(scaleFactor-1), 0]`. -/
def xOffsetClamp (width offset scaleFactor : ℚ) : ℚ :=
  clamp offset (-(width * (scaleFactor - 1))) 0

/-- `panGraph(delta, width)`: if the tweening offset is non-zero, fold
it into the panning offset (read from the CURRENT xOffset value) and
call the tween setter with 0 (the `false` argument of
`setXOffsetDelta(0, false)` is ignored); then force the offset to the
clamped new position.  `now` is the clock value used by the tween
setter.  There is no width guard in the source. -/
def panGraph (A : AppState) (delta width now : ℚ) : AppState :=
  let offset0 := A.offset.value
  if A.delta.currentValue ≠ 0 then
    let offset1 := offset0 + A.delta.currentValue
    { scale := A.scale
      offset := setManualForcing (setManualForcing A.offset offset1)
                  (xOffsetClamp width (offset1 + delta) A.scale.currentValue)
      delta := setTargetValue A.delta 0 now }
  else
    { A with offset := setManualForcing A.offset
               (xOffsetClamp width (offset0 + delta) A.scale.currentValue) }

/-- `zoomGraph(delta, width, x)`: compute the click ratio `alpha` from
the current values, retarget the scale tween to `xScaleFactorTarget +
delta` (no clamping to 1 in the source) and retarget the offset-delta
tween to keep the ratio to the left-hand side. -/
def zoomGraph (A : AppState) (delta width x now : ℚ) : AppState :=
  let alpha := (x - A.offset.value - A.delta.currentValue) / (width * A.scale.currentValue)
  { A with scale := setTargetValue A.scale (A.scale.targetValue + delta) now
           delta := setTargetValue A.delta (A.delta.currentValue - alpha * delta * width) now }

/-- The offset handed to the renderer each frame:
`xOffsetClamp(width, xOffset + xOffsetDelta, xScaleFactor)`. -/
def renderedOffset (A : AppState) (width : ℚ) : ℚ :=
  xOffsetClamp width (A.offset.value + A.delta.currentValue) A.scale.currentValue

/-- A tween at rest at `v` (current = target = v, nothing scheduled). -/
def settledTween (v : ℚ) : TweenState := ⟨v, v, v, 0, false⟩

/-- An inertial state at rest at `v` (velocity 0, nothing scheduled). -/
def settledInertial (v : ℚ) : InertialState := ⟨v, v, v, 0, 0, Pending.idle⟩

/-- A fully settled coordinator state with scale `S0`, offset `O0` and
zero offset correction. -/
def settledApp (S0 O0 : ℚ) : AppState := ⟨settledTween S0, settledInertial O0, settledTween 0⟩

/-- Let both tweens of the coordinator settle: run their pending frame
callbacks (duration 400 ms, quadratic ease-in-out — the defaults both
instances are created with) at a late timestamp `ts`. -/
def settleAt (A : AppState) (ts : ℚ) : AppState :=
  { A with scale := tweenFrame 400 easeInOutQuad A.scale ts
           delta := tweenFrame 400 easeInOutQuad A.delta ts }

/-- The fraction of the virtual (scaled) content width sitting under
screen position `x`: content at fraction `f` renders at screen
`f * width * scaleFactor + renderedOffset`. -/
def anchorFrac (A : AppState) (width x : ℚ) : ℚ :=
  (x - renderedOffset A width) / (width * A.scale.currentValue)

/-- Screen position at which the content point at fraction `f` of the
virtual width renders. -/
def screenPos (A : AppState) (width f : ℚ) : ℚ :=
  f * width * A.scale.currentValue + renderedOffset A width



/-- The frame callback on or after the deadline: jump to the target and
do not reschedule. -/
theorem animate_late (d : ℚ) (ease : ℚ → ℚ) (s : TweenState) (ts : ℚ)
    (h : d ≤ ts - s.startTime) :
    animate d ease s ts = { s with currentValue := s.targetValue, scheduled := false } := by
  simp [animate, h]

/-- The frame callback before the deadline: ease and reschedule. -/
theorem animate_early (d : ℚ) (ease : ℚ → ℚ) (s : TweenState) (ts : ℚ)
    (h : ¬ d ≤ ts - s.startTime) :
    animate d ease s ts =
      { s with
        currentValue := ease ((ts - s.startTime) / d) * (s.targetValue - s.startValue) + s.startValue
        scheduled := true } := by
  simp [animate, h]

/-- C5 (amended): the setter is a no-op only when the new value equals
the CURRENT animated value, not the target; re-sending the in-flight
target (necessarily different from the current value mid-flight) resets
the start timestamp to the time of the second call, so the tween is
still running at the originally expected completion time and only
completes a full duration after the second call. -/
theorem c5_amended (s : TweenState) (now d : ℚ) (ease : ℚ → ℚ)
    (hv : s.targetValue ≠ s.currentValue) (hstart : s.startTime < now) (hd : 0 < d) :
    (setTargetValue s s.targetValue now).startTime = now ∧
    (animate d ease (setTargetValue s s.targetValue now) (s.startTime + d)).scheduled = true ∧
    (animate d ease (setTargetValue s s.targetValue now) (now + d)).currentValue = s.targetValue ∧
    (animate d ease (setTargetValue s s.targetValue now) (now + d)).scheduled = false := by
  have hset : setTargetValue s s.targetValue now =
      { s with startValue := s.currentValue, startTime := now,
               targetValue := s.targetValue, scheduled := true } := by
    simp [setTargetValue, if_pos hv]
  rw [hset, animate_early _ _ _ _ (by simp only []; linarith),
    animate_late _ _ _ _ (by simp only []; linarith)]
  simp

/-! ## Claims about the tween engine -/

/-- C10: calling the tween setter with the tween's current animated value
is a complete no-op for every state, including mid-flight toward a
different target: the stored target is not updated, the start data is
untouched and the pending callback is neither cancelled nor replaced. -/
theorem c10_setter_noop_on_current (s : TweenState) (now : ℚ) :
    setTargetValue s s.currentValue now = s := by
  simp [setTargetValue]

/-- C5 (counterexample): a tween in flight from 0 toward 10, currently at
5 with start timestamp 0; calling the setter again with the same target
10 at time 300 is not a no-op: it resets the start timestamp to 300, and
at the originally expected completion time 400 the tween is still
running and rescheduling rather than complete. -/
theorem c5_cex :
    (setTargetValue ⟨5, 10, 0, 0, true⟩ 10 300).startTime = 300 ∧
    (setTargetValue ⟨5, 10, 0, 0, true⟩ 10 300).startTime ≠ (0 : ℚ) ∧
    (animate 400 easeLinear (setTargetValue ⟨5, 10, 0, 0, true⟩ 10 300) 400).scheduled = true := by
  norm_num [setTargetValue, animate, easeLinear]

/-- C5 witness for the amended theorem. -/
theorem c5_witness :
    ((10 : ℚ) ≠ 5) ∧
    (setTargetValue ⟨5, 10, 0, 0, true⟩ 10 300).startTime = 300 ∧
    (animate 400 easeLinear (setTargetValue ⟨5, 10, 0, 0, true⟩ 10 300) ((0 : ℚ) + 400)).scheduled = true ∧
    (animate 400 easeLinear (setTargetValue ⟨5, 10, 0, 0, true⟩ 10 300) ((300 : ℚ) + 400)).currentValue = 10 ∧
    (animate 400 easeLinear (setTargetValue ⟨5, 10, 0, 0, true⟩ 10 300) ((300 : ℚ) + 400)).scheduled = false := by
  have h := c5_amended ⟨5, 10, 0, 0, true⟩ 300 400 easeLinear (by norm_num) (by norm_num) (by norm_num)
  exact ⟨by norm_num, h.1, h.2.1, h.2.2.1, h.2.2.2⟩

/-- C8: tween completion — for every duration > 0 and every easing
function, after the setter retargets the tween to `T` (the call takes
effect since `T` differs from the current value), a frame whose elapsed
time since the call is at least the duration sets the current value to
`T` exactly and does not reschedule. -/
theorem c8_tween_completion (s : TweenState) (T now ts d : ℚ) (ease : ℚ → ℚ)
    (hd : 0 < d) (hT : T ≠ s.currentValue) (hts : d ≤ ts - now) :
    (animate d ease (setTargetValue s T now) ts).currentValue = T ∧
    (animate d ease (setTargetValue s T now) ts).scheduled = false := by
  simp only [setTargetValue, if_pos hT, animate]
  rw [if_pos (by simpa using hts)]
  exact ⟨rfl, rfl⟩

/-- C8 witness. -/
theorem c8_witness :
    (0 : ℚ) < 400 ∧ ((10 : ℚ) ≠ 0) ∧
    (animate 400 easeInOutQuad (setTargetValue (settledTween 0) 10 100) 500).currentValue = 10 ∧
    (animate 400 easeInOutQuad (setTargetValue (settledTween 0) 10 100) 500).scheduled = false := by
  have h := c8_tween_completion (settledTween 0) 10 100 500 400 easeInOutQuad
    (by norm_num) (by norm_num [settledTween]) (by norm_num)
  exact ⟨by norm_num, by norm_num, h.1, h.2⟩

/-! ## Claims about the inertial engine's setter and first sample -/

/-- C3 (counterexample): after calling the setter with 9 on an engine
settled at 5, reading the position immediately yields 5, not 9 — only
the target was updated synchronously. -/
theorem c3_cex :
    (setManualForcing (settledInertial 5) 9).value = 5 ∧
    (setManualForcing (settledInertial 5) 9).value ≠ 9 ∧
    (setManualForcing (settledInertial 5) 9).target = 9 := by
  norm_num [setManualForcing, settledInertial]

/-- C3 (amended): the setter updates the target synchronously and
schedules the manual-forcing callback, but leaves the position
unchanged; the position becomes `v` only when that callback runs on the
following frame. -/
theorem c3_amended (s : InertialState) (v ts : ℚ) :
    (setManualForcing s v).target = v ∧
    (setManualForcing s v).value = s.value ∧
    (setManualForcing s v).pending = Pending.forcing ∧
    (manualForcingStep (setManualForcing s v) ts).value = v := by
  simp [setManualForcing, manualForcingStep]

/-- C4 (code bug): the first-sample guard is absent.  With the previous
timestamp still at its initial value 0, the first manual-forcing frame
at timestamp 1 ms after `forceTo 100` computes
`velocity = (100 - 0) / ((1 - 0)/1000) = 100000` — a huge spike — where
the claim (and spec §9) requires velocity 0. -/
theorem c4_first_sample_spike :
    (manualForcingStep (setManualForcing (settledInertial 0) 100) 1).velocity = 100000 ∧
    (100000 : ℚ) ≠ 0 := by
  norm_num [manualForcingStep, setManualForcing, settledInertial]

/-! ## Claims about the pan/zoom coordinator -/

/-- C2 (code bug): `zoomGraph` does not clamp the scale target.  From a
settled state with scale 1, zooming with `deltaScale = -1/2` sets the
scale-factor target to `1/2`, strictly below 1; the claimed
`max(target + deltaScale, 1)` appears only in the scale-decrement
button, not in the zoom operation. -/
theorem c2_zoom_scale_not_clamped :
    (zoomGraph (settledApp 1 0) (-1/2) 1000 500 0).scale.targetValue = 1/2 ∧
    ¬ (1 ≤ (zoomGraph (settledApp 1 0) (-1/2) 1000 500 0).scale.targetValue) := by
  norm_num [zoomGraph, setTargetValue, settledApp, settledTween, settledInertial]

/-- C6 (counterexample): with width 0, panning by 3 from a settled state
at offset -5 and scale 2 is not a no-op: the offset target is forced to
0 (the degenerate clamp value) and a manual-forcing frame is scheduled. -/
theorem c6_cex :
    (panGraph (settledApp 2 (-5)) 3 0 0).offset.target = 0 ∧
    (panGraph (settledApp 2 (-5)) 3 0 0).offset.target ≠ (settledApp 2 (-5)).offset.target ∧
    (panGraph (settledApp 2 (-5)) 3 0 0).offset.pending = Pending.forcing := by
  norm_num [panGraph, setManualForcing, xOffsetClamp, clamp, settledApp, settledTween,
    settledInertial]

/-- C6 (amended): neither pan nor zoom checks the width; with width ≤ 0
they still mutate state and schedule frames: panGraph always schedules a
manual-forcing callback for the offset, and zoomGraph (from a scale
tween at rest, with any non-zero deltaScale) retargets and schedules the
scale tween.  The only non-positive-size guard is in the rendering
layer, which merely skips drawing. -/
theorem c6_amended (A : AppState) (delta dS width x now : ℚ)
    (hw : width ≤ 0) (hsc : A.scale.currentValue = A.scale.targetValue) (hdS : dS ≠ 0) :
    (panGraph A delta width now).offset.pending = Pending.forcing ∧
    (zoomGraph A dS width x now).scale.targetValue = A.scale.targetValue + dS ∧
    (zoomGraph A dS width x now).scale.scheduled = true := by
  refine ⟨?_, ?_, ?_⟩
  · unfold panGraph
    split <;> simp [setManualForcing]
  · have hne : A.scale.targetValue + dS ≠ A.scale.currentValue := by
      rw [hsc]; intro h; exact hdS (by linarith)
    simp [zoomGraph, setTargetValue, if_pos hne]
  · have hne : A.scale.targetValue + dS ≠ A.scale.currentValue := by
      rw [hsc]; intro h; exact hdS (by linarith)
    simp [zoomGraph, setTargetValue, if_pos hne]

/-- C6 witness. -/
theorem c6_witness :
    ((0 : ℚ) ≤ 0) ∧
    (panGraph (settledApp 2 (-5)) 3 0 0).offset.pending = Pending.forcing ∧
    (zoomGraph (settledApp 2 (-5)) 1 0 7 0).scale.targetValue = (settledApp 2 (-5)).scale.targetValue + 1 ∧
    (zoomGraph (settledApp 2 (-5)) 1 0 7 0).scale.scheduled = true := by
  have h := c6_amended (settledApp 2 (-5)) 3 1 0 7 0 (by norm_num)
    (by norm_num [settledApp, settledTween]) (by norm_num)
  exact ⟨by norm_num, h.1, h.2.1, h.2.2⟩

/-- C7 (counterexample): offset currently reading -10 while its target is
-20 (a forceTo awaiting its frame), correction tween settled at 5, scale
2, width 1000.  `panGraph (-2)` folds using the CURRENT offset value:
the offset target becomes -10 + 5 - 2 = -7 rather than the claimed
-20 + 5 - 2 = -17; and the correction is "reset" by starting a new tween
toward 0, so immediately after the call it still reads 5 with a frame
scheduled — the reset animates. -/
theorem c7_cex :
    (panGraph ⟨settledTween 2, ⟨-10, -20, -10, 0, 0, Pending.forcing⟩, settledTween 5⟩
        (-2) 1000 7).offset.target = -7 ∧
    ((-7 : ℚ) ≠ -17) ∧
    (panGraph ⟨settledTween 2, ⟨-10, -20, -10, 0, 0, Pending.forcing⟩, settledTween 5⟩
        (-2) 1000 7).delta.currentValue = 5 ∧
    ((5 : ℚ) ≠ 0) ∧
    (panGraph ⟨settledTween 2, ⟨-10, -20, -10, 0, 0, Pending.forcing⟩, settledTween 5⟩
        (-2) 1000 7).delta.scheduled = true := by
  norm_num [panGraph, setManualForcing, setTargetValue, xOffsetClamp, clamp, settledTween]

/-- C7 (amended): when the correction is non-zero, pan folds it into the
offset using the offset's CURRENT value — the offset is forced to
`clamp(offset.value + correction.value + deltaPixels)` — and resets the
correction by calling the tween setter with 0 (the extra `false`
argument is ignored), which starts a tween animating the correction from
its current value to 0 rather than assigning it directly: the stored
correction value is unchanged by the call itself and a frame is
scheduled. -/
theorem c7_amended (A : AppState) (delta width now : ℚ) (h : A.delta.currentValue ≠ 0) :
    (panGraph A delta width now).offset.target
        = xOffsetClamp width (A.offset.value + A.delta.currentValue + delta) A.scale.currentValue ∧
    (panGraph A delta width now).offset.pending = Pending.forcing ∧
    (panGraph A delta width now).delta.targetValue = 0 ∧
    (panGraph A delta width now).delta.currentValue = A.delta.currentValue ∧
    (panGraph A delta width now).delta.scheduled = true ∧
    (panGraph A delta width now).delta.startValue = A.delta.currentValue ∧
    (panGraph A delta width now).delta.startTime = now := by
  have h0 : (0 : ℚ) ≠ A.delta.currentValue := Ne.symm h
  simp [panGraph, if_pos h, setManualForcing, setTargetValue, if_pos h0]

/-- C7 witness for the amended theorem. -/
theorem c7_witness :
    ((5 : ℚ) ≠ 0) ∧
    (panGraph ⟨settledTween 2, ⟨-10, -20, -10, 0, 0, Pending.forcing⟩, settledTween 5⟩
        (-2) 1000 7).offset.target
      = xOffsetClamp 1000 ((-10 : ℚ) + 5 + -2) 2 ∧
    (panGraph ⟨settledTween 2, ⟨-10, -20, -10, 0, 0, Pending.forcing⟩, settledTween 5⟩
        (-2) 1000 7).delta.currentValue = 5 ∧
    (panGraph ⟨settledTween 2, ⟨-10, -20, -10, 0, 0, Pending.forcing⟩, settledTween 5⟩
        (-2) 1000 7).delta.scheduled = true := by
  have h := c7_amended ⟨settledTween 2, ⟨-10, -20, -10, 0, 0, Pending.forcing⟩, settledTween 5⟩
    (-2) 1000 7 (by norm_num [settledTween])
  refine ⟨by norm_num, ?_, ?_, h.2.2.2.2.1⟩
  · simpa [settledTween] using h.1
  · simpa [settledTween] using h.2.2.2.1



/-! ## C1: zoom anchor preservation -/

/-- Clamp is the identity inside the range. -/
theorem clamp_eq_self (v lo hi : ℚ) (h1 : lo ≤ v) (h2 : v ≤ hi) : clamp v lo hi = v := by
  rw [clamp, min_eq_left h2, max_eq_right h1]

/-- Retargeting a settled tween and running its frame callback at or
after the deadline leaves the current value at the new target.  (When
the setter no-ops because the new target equals the resting value, the
tween already rests there and no callback is pending.) -/
theorem tween_set_settle (v T now ts : ℚ) (hts : 400 ≤ ts - now) :
    (tweenFrame 400 easeInOutQuad (setTargetValue (settledTween v) T now) ts).currentValue = T := by
  by_cases h : T = v
  · subst h
    simp [setTargetValue, settledTween, tweenFrame]
  · have h' : T ≠ (settledTween v).currentValue := by simpa [settledTween] using h
    rw [setTargetValue, if_pos h']
    rw [tweenFrame, if_pos rfl]
    rw [animate_late _ _ _ _ (by simpa [settledTween] using hts)]

/-- C1 (amended): zoom anchor preservation holds exactly for zooming in.
From any fully settled state with scale `S0 ≥ 1`, offset `O0` inside the
valid clamp range for `(width, S0)` and zero correction, for any
`width > 0`, click position `X` within the viewport and scale delta
`dS ≥ 0`, after `zoomGraph dS width X` and after both tweens settle, the
content fraction that was under `X` before the zoom renders at exactly
`X` again (so in particular within ±1). -/
theorem c1_amended (S0 O0 dS width X now ts : ℚ)
    (hw : 0 < width) (hS : 1 ≤ S0)
    (hO1 : -(width * (S0 - 1)) ≤ O0) (hO2 : O0 ≤ 0)
    (hdS : 0 ≤ dS) (hX0 : 0 ≤ X) (hX1 : X ≤ width) (hts : 400 ≤ ts - now) :
    screenPos (settleAt (zoomGraph (settledApp S0 O0) dS width X now) ts) width
      (anchorFrac (settledApp S0 O0) width X) = X := by
  have hws : (0 : ℚ) < width * S0 := by nlinarith
  have hro0 : renderedOffset (settledApp S0 O0) width = O0 := by
    simp only [renderedOffset, settledApp, settledTween, settledInertial, xOffsetClamp]
    rw [add_zero]
    exact clamp_eq_self _ _ _ hO1 hO2
  have hsc : (settleAt (zoomGraph (settledApp S0 O0) dS width X now) ts).scale.currentValue
      = S0 + dS := by
    have h := tween_set_settle S0 (S0 + dS) now ts hts
    simpa [settleAt, zoomGraph, settledApp, settledTween, settledInertial] using h
  have hdc : (settleAt (zoomGraph (settledApp S0 O0) dS width X now) ts).delta.currentValue
      = 0 - (X - O0) / (width * S0) * dS * width := by
    have h := tween_set_settle 0 (0 - (X - O0) / (width * S0) * dS * width) now ts hts
    simpa [settleAt, zoomGraph, settledApp, settledTween, settledInertial] using h
  have hoffv : (settleAt (zoomGraph (settledApp S0 O0) dS width X now) ts).offset.value = O0 := by
    simp [settleAt, zoomGraph, settledApp, settledTween, settledInertial]
  have hF0 : (0 : ℚ) ≤ (X - O0) / (width * S0) := div_nonneg (by linarith) hws.le
  have hF1 : (X - O0) / (width * S0) ≤ 1 := by
    rw [div_le_one hws]; nlinarith
  have hcancel : (X - O0) / (width * S0) * (width * S0) = X - O0 :=
    div_mul_cancel₀ _ (ne_of_gt hws)
  have hub : O0 + (0 - (X - O0) / (width * S0) * dS * width) ≤ 0 := by
    nlinarith [mul_nonneg (mul_nonneg hF0 hdS) hw.le]
  have hlb : -(width * (S0 + dS - 1)) ≤ O0 + (0 - (X - O0) / (width * S0) * dS * width) := by
    nlinarith [mul_nonneg (mul_nonneg (sub_nonneg.mpr hF1) hdS) hw.le]
  have hro2 : renderedOffset (settleAt (zoomGraph (settledApp S0 O0) dS width X now) ts) width
      = O0 + (0 - (X - O0) / (width * S0) * dS * width) := by
    rw [renderedOffset, hoffv, hdc, hsc, xOffsetClamp]
    exact clamp_eq_self _ _ _ hlb hub
  have hFval : anchorFrac (settledApp S0 O0) width X = (X - O0) / (width * S0) := by
    rw [anchorFrac, hro0]
    simp [settledApp, settledTween]
  rw [screenPos, hsc, hro2, hFval]
  linear_combination hcancel

/-- C1 (counterexample): zooming OUT (`deltaScale = -1/2`) from the
settled state with scale 1, offset 0, width 1000, click position 500:
after both tweens settle, the content fraction that was under 500
renders at 750 — off by 250, far beyond the claimed ±1 rounding
allowance (the unclamped scale drops below 1 and the render clamp then
shifts the offset). -/
theorem c1_cex :
    screenPos (settleAt (zoomGraph (settledApp 1 0) (-1/2) 1000 500 0) 400) 1000
      (anchorFrac (settledApp 1 0) 1000 500) = 750 ∧
    ¬ |screenPos (settleAt (zoomGraph (settledApp 1 0) (-1/2) 1000 500 0) 400) 1000
        (anchorFrac (settledApp 1 0) 1000 500) - 500| ≤ 1 := by
  have h : screenPos (settleAt (zoomGraph (settledApp 1 0) (-1/2) 1000 500 0) 400) 1000
      (anchorFrac (settledApp 1 0) 1000 500) = 750 := by
    norm_num [screenPos, settleAt, tweenFrame, animate, zoomGraph, setTargetValue, anchorFrac,
      renderedOffset, xOffsetClamp, clamp, settledApp, settledTween, settledInertial]
  rw [h]
  norm_num

/-- C1 witness for the amended theorem: settled scale 2, offset -100,
zoom in by 1 at click 500 in a 1000-wide viewport. -/
theorem c1_witness :
    (0 : ℚ) < 1000 ∧
    screenPos (settleAt (zoomGraph (settledApp 2 (-100)) 1 1000 500 0) 400) 1000
      (anchorFrac (settledApp 2 (-100)) 1000 500) = 500 :=
  ⟨by norm_num,
    c1_amended 2 (-100) 1 1000 500 0 400 (by norm_num) (by norm_num) (by norm_num)
      (by norm_num) (by norm_num) (by norm_num) (by norm_num) (by norm_num)⟩

/-! ## C9: inertial convergence -/

/-- The damped velocity as a product with the per-frame decay factor. -/
theorem coastVel_eq (zeta : ℚ) (s : InertialState) (ts : ℚ) :
    coastVel zeta s ts = s.velocity * (1 - zeta * ((ts - s.previousTimestamp) / 1000)) := by
  rw [coastVel]; ring

/-- A coasting frame either keeps coasting (velocity above threshold
after damping) or stops with velocity zeroed. -/
theorem inertialStep_cases (zeta threshold : ℚ) (s : InertialState) (ts : ℚ) :
    (threshold < |coastVel zeta s ts| ∧
      (inertialStep zeta threshold s ts).velocity = coastVel zeta s ts ∧
      (inertialStep zeta threshold s ts).pending = Pending.coasting ∧
      (inertialStep zeta threshold s ts).previousTimestamp = ts) ∨
    (¬ threshold < |coastVel zeta s ts| ∧
      (inertialStep zeta threshold s ts).velocity = 0 ∧
      (inertialStep zeta threshold s ts).pending = Pending.idle) := by
  by_cases h : threshold < |coastVel zeta s ts|
  · exact Or.inl ⟨h, by simp [inertialStep, h], by simp [inertialStep, h], by simp [inertialStep, h]⟩
  · exact Or.inr ⟨h, by simp [inertialStep, h], by simp [inertialStep, h]⟩

/-- A frame on a coasting engine runs the `inertial` callback. -/
theorem stepFrame_coasting (zeta threshold : ℚ) (s : InertialState) (ts : ℚ)
    (h : s.pending = Pending.coasting) :
    stepFrame zeta threshold s ts = inertialStep zeta threshold s ts := by
  simp only [stepFrame, h]

/-- A frame on an idle engine does nothing. -/
theorem stepFrame_idle (zeta threshold : ℚ) (s : InertialState) (ts : ℚ)
    (h : s.pending = Pending.idle) :
    stepFrame zeta threshold s ts = s := by
  simp only [stepFrame, h]

/-- C9 (amended): inertial convergence under bounded frame pacing.
Starting right after a manual-forcing frame (the `inertial` callback
pending, previous timestamp equal to that frame's time, any velocity),
if every inter-frame interval `dt` in seconds satisfies `dlt ≤ dt` and
`zeta * dt ≤ 1` for some fixed `dlt > 0`, then within finitely many
frames the engine sets its velocity to exactly 0 and stops scheduling. -/
theorem c9_amended (zeta threshold dlt : ℚ) (s0 : InertialState) (times : ℕ → ℚ)
    (hz : 0 < zeta) (hth : 0 < threshold) (hdlt : 0 < dlt)
    (hdt : ∀ n, dlt ≤ (times (n + 1) - times n) / 1000 ∧
                zeta * ((times (n + 1) - times n) / 1000) ≤ 1)
    (hp : s0.pending = Pending.coasting) (ht0 : s0.previousTimestamp = times 0) :
    ∃ n, (runFrames zeta threshold s0 times n).pending = Pending.idle ∧
         (runFrames zeta threshold s0 times n).velocity = 0 := by
  set q : ℚ := 1 - zeta * dlt with hq
  have hq0 : 0 ≤ q := by
    obtain ⟨h1, h2⟩ := hdt 0
    have h3 : zeta * dlt ≤ zeta * ((times 1 - times 0) / 1000) :=
      mul_le_mul_of_nonneg_left h1 hz.le
    rw [hq]; linarith
  have hq1 : q < 1 := by
    have h3 : 0 < zeta * dlt := mul_pos hz hdlt
    rw [hq]; linarith
  have inv : ∀ n,
      (((runFrames zeta threshold s0 times n).pending = Pending.coasting ∧
        (runFrames zeta threshold s0 times n).previousTimestamp = times n) ∨
       ((runFrames zeta threshold s0 times n).pending = Pending.idle ∧
        (runFrames zeta threshold s0 times n).velocity = 0)) ∧
      |(runFrames zeta threshold s0 times n).velocity| ≤ |s0.velocity| * q ^ n := by
    intro n
    induction n with
    | zero =>
      refine ⟨Or.inl ⟨hp, ht0⟩, ?_⟩
      simp [runFrames]
    | succ n ih =>
      obtain ⟨hcase, hbound⟩ := ih
      rcases hcase with ⟨hc, hprev⟩ | ⟨hi, hv⟩
      · have hstep : runFrames zeta threshold s0 times (n + 1)
            = inertialStep zeta threshold (runFrames zeta threshold s0 times n) (times (n + 1)) := by
          simp only [runFrames]
          exact stepFrame_coasting _ _ _ _ hc
        obtain ⟨hd1, hd2⟩ := hdt n
        have hcv : coastVel zeta (runFrames zeta threshold s0 times n) (times (n + 1))
            = (runFrames zeta threshold s0 times n).velocity
                * (1 - zeta * ((times (n + 1) - times n) / 1000)) := by
          rw [coastVel_eq, hprev]
        have hfac0 : 0 ≤ 1 - zeta * ((times (n + 1) - times n) / 1000) := by linarith
        have hfacq : 1 - zeta * ((times (n + 1) - times n) / 1000) ≤ q := by
          have h3 : zeta * dlt ≤ zeta * ((times (n + 1) - times n) / 1000) :=
            mul_le_mul_of_nonneg_left hd1 hz.le
          rw [hq]; linarith
        have hnext : |coastVel zeta (runFrames zeta threshold s0 times n) (times (n + 1))|
            ≤ |s0.velocity| * q ^ (n + 1) := by
          calc |coastVel zeta (runFrames zeta threshold s0 times n) (times (n + 1))|
              = |(runFrames zeta threshold s0 times n).velocity|
                  * |1 - zeta * ((times (n + 1) - times n) / 1000)| := by rw [hcv, abs_mul]
            _ ≤ |(runFrames zeta threshold s0 times n).velocity| * q := by
                rw [abs_of_nonneg hfac0]
                exact mul_le_mul_of_nonneg_left hfacq (abs_nonneg _)
            _ ≤ (|s0.velocity| * q ^ n) * q := mul_le_mul_of_nonneg_right hbound hq0
            _ = |s0.velocity| * q ^ (n + 1) := by ring
        rcases inertialStep_cases zeta threshold (runFrames zeta threshold s0 times n)
            (times (n + 1)) with ⟨hgt, hv', hp', hts'⟩ | ⟨hle, hv', hp'⟩
        · refine ⟨Or.inl ⟨by rw [hstep]; exact hp', by rw [hstep]; exact hts'⟩, ?_⟩
          rw [hstep, hv']
          exact hnext
        · refine ⟨Or.inr ⟨by rw [hstep]; exact hp', by rw [hstep]; exact hv'⟩, ?_⟩
          rw [hstep, hv']
          simpa using mul_nonneg (abs_nonneg s0.velocity) (pow_nonneg hq0 (n + 1))
      · have hstep : runFrames zeta threshold s0 times (n + 1)
            = runFrames zeta threshold s0 times n := by
          simp only [runFrames]
          exact stepFrame_idle _ _ _ _ hi
        refine ⟨Or.inr ⟨by rw [hstep]; exact hi, by rw [hstep]; exact hv⟩, ?_⟩
        rw [hstep, hv]
        simpa using mul_nonneg (abs_nonneg s0.velocity) (pow_nonneg hq0 (n + 1))
  obtain ⟨N, hN⟩ : ∃ N, |s0.velocity| * q ^ N < threshold := by
    rcases eq_or_ne s0.velocity 0 with h0 | h0
    · exact ⟨0, by simp [h0, hth]⟩
    · have hv0 : 0 < |s0.velocity| := abs_pos.mpr h0
      obtain ⟨N, hN⟩ := exists_pow_lt_of_lt_one (div_pos hth hv0) hq1
      refine ⟨N, ?_⟩
      calc |s0.velocity| * q ^ N < |s0.velocity| * (threshold / |s0.velocity|) :=
            (mul_lt_mul_left hv0).mpr hN
        _ = threshold := by field_simp
  obtain ⟨hcase, hbound⟩ := inv N
  rcases hcase with ⟨hc, hprev⟩ | ⟨hi, hv⟩
  · have hstep : runFrames zeta threshold s0 times (N + 1)
        = inertialStep zeta threshold (runFrames zeta threshold s0 times N) (times (N + 1)) := by
      simp only [runFrames]
      exact stepFrame_coasting _ _ _ _ hc
    obtain ⟨hd1, hd2⟩ := hdt N
    have hfac0 : 0 ≤ 1 - zeta * ((times (N + 1) - times N) / 1000) := by linarith
    have hfac1 : 1 - zeta * ((times (N + 1) - times N) / 1000) ≤ 1 := by
      have h1 : 0 < (times (N + 1) - times N) / 1000 := lt_of_lt_of_le hdlt hd1
      nlinarith
    have hcv : coastVel zeta (runFrames zeta threshold s0 times N) (times (N + 1))
        = (runFrames zeta threshold s0 times N).velocity
            * (1 - zeta * ((times (N + 1) - times N) / 1000)) := by
      rw [coastVel_eq, hprev]
    have hsmall : |coastVel zeta (runFrames zeta threshold s0 times N) (times (N + 1))|
        ≤ |(runFrames zeta threshold s0 times N).velocity| := by
      rw [hcv, abs_mul, abs_of_nonneg hfac0]
      nlinarith [abs_nonneg (runFrames zeta threshold s0 times N).velocity]
    have hstop : ¬ threshold < |coastVel zeta (runFrames zeta threshold s0 times N)
        (times (N + 1))| := by
      push_neg
      exact le_of_lt (lt_of_le_of_lt (hsmall.trans hbound) hN)
    rcases inertialStep_cases zeta threshold (runFrames zeta threshold s0 times N)
        (times (N + 1)) with ⟨hgt, _, _, _⟩ | ⟨_, hv', hp'⟩
    · exact absurd hgt hstop
    · exact ⟨N + 1, by rw [hstep]; exact hp', by rw [hstep]; exact hv'⟩
  · exact ⟨N, hi, hv⟩

/-- Frame timestamps for the C9 witness run: one frame every 16 ms. -/
def c9wTimes (n : ℕ) : ℚ := 16 * n

/-- C9 witness for the amended theorem: zeta 10, threshold 1, velocity
100 after the forcing frame at t = 0, frames every 16 ms. -/
theorem c9_witness :
    (0 : ℚ) < 10 ∧
    ∃ n, (runFrames 10 1 ⟨0, 0, 0, 0, 100, Pending.coasting⟩ c9wTimes n).pending = Pending.idle ∧
         (runFrames 10 1 ⟨0, 0, 0, 0, 100, Pending.coasting⟩ c9wTimes n).velocity = 0 := by
  refine ⟨by norm_num, c9_amended 10 1 (2/125) _ c9wTimes (by norm_num) (by norm_num)
    (by norm_num) ?_ rfl ?_⟩
  · intro n
    have h : c9wTimes (n + 1) - c9wTimes n = 16 := by
      simp only [c9wTimes]
      push_cast
      ring
    rw [h]
    norm_num
  · simp [c9wTimes]

/-- Starting state of the C9 divergence run: engine settled at 0,
`forceTo 30`, manual-forcing frame at t = 300 ms (velocity becomes
(30 - 0) / 0.3 = 100). -/
def c9cexS : InertialState := stepFrame 10 1 (setManualForcing (settledInertial 0) 30) 300

/-- Coasting frame timestamps of the divergence run: 600, 900, 1200, …
(strictly increasing, 300 ms apart). -/
def c9cexTimes (n : ℕ) : ℚ := 300 * (n + 1)

/-- In the divergence run each coasting frame multiplies the velocity by
`1 - 10 * 0.3 = -2`, so the engine coasts forever with exploding
velocity. -/
theorem c9cex_inv (n : ℕ) :
    (runFrames 10 1 c9cexS c9cexTimes n).pending = Pending.coasting ∧
    (runFrames 10 1 c9cexS c9cexTimes n).velocity = 100 * (-2) ^ n ∧
    (runFrames 10 1 c9cexS c9cexTimes n).previousTimestamp = 300 * (n + 1) := by
  induction n with
  | zero =>
    refine ⟨?_, ?_, ?_⟩ <;>
      norm_num [runFrames, c9cexS, stepFrame, manualForcingStep, setManualForcing,
        settledInertial]
  | succ n ih =>
    obtain ⟨hp, hv, hts⟩ := ih
    have hstep : runFrames 10 1 c9cexS c9cexTimes (n + 1)
        = inertialStep 10 1 (runFrames 10 1 c9cexS c9cexTimes n) (c9cexTimes (n + 1)) := by
      simp only [runFrames]
      exact stepFrame_coasting _ _ _ _ hp
    have hcv : coastVel 10 (runFrames 10 1 c9cexS c9cexTimes n) (c9cexTimes (n + 1))
        = 100 * (-2) ^ (n + 1) := by
      rw [coastVel_eq, hts, hv]
      have harg : c9cexTimes (n + 1) - 300 * ((n : ℚ) + 1) = 300 := by
        simp only [c9cexTimes]
        push_cast
        ring
      rw [harg, pow_succ]
      norm_num [mul_assoc]
    have habs : (1 : ℚ) < |coastVel 10 (runFrames 10 1 c9cexS c9cexTimes n)
        (c9cexTimes (n + 1))| := by
      rw [hcv, abs_mul, abs_pow]
      norm_num
      have h2 : (1 : ℚ) ≤ 2 ^ (n + 1) := by exact_mod_cast Nat.one_le_two_pow
      linarith
    rcases inertialStep_cases 10 1 (runFrames 10 1 c9cexS c9cexTimes n)
        (c9cexTimes (n + 1)) with ⟨_, hv', hp', hts'⟩ | ⟨hle, _, _⟩
    · refine ⟨by rw [hstep]; exact hp', by rw [hstep, hv', hcv], ?_⟩
      rw [hstep, hts']
      norm_num [c9cexTimes]
    · exact absurd habs (by simpa using hle)

/-- C9 (counterexample): with zeta 10 and threshold 1 (the source
defaults), after `forceTo 30` and its forcing frame at t = 300 ms,
coasting frames at the strictly increasing timestamps 600, 900, 1200, …
multiply the velocity by -2 each time: the claim fails as stated — the
engine never reaches velocity 0 and never stops scheduling. -/
theorem c9_cex :
    ¬ ∃ n, (runFrames 10 1 c9cexS c9cexTimes n).pending = Pending.idle ∧
           (runFrames 10 1 c9cexS c9cexTimes n).velocity = 0 := by
  rintro ⟨n, hpend, -⟩
  have h := (c9cex_inv n).1
  rw [hpend] at h
  simp at h
end Icecore
